import Mathlib

/-!
Verification of the license-token codec of this repository
(`security_utils.py`: machine fingerprint, XOR/base64 credential tokens)
and the expiry check of `app.py` (`parse_expire_at`, `is_token_expired`).

Python strings are shallowly embedded as `List Char` (a Python `str` is a
sequence of Unicode scalar values; strings containing lone surrogates are
outside the embedded domain).  Python `bytes` are embedded as `List Nat`
with every element `< 256`.  The library routines the code calls
(`hashlib.sha256`, `base64.urlsafe_b64encode` / `urlsafe_b64decode`,
`str.encode("utf-8")` / `bytes.decode("utf-8")`, `str.strip`,
`str.split`, `datetime.strptime`) are embedded concretely below,
following their documented semantics, so that every definition is
executable.  `urlsafe_b64decode` is embedded with canonical padding
handling (characters outside the alphabet are discarded, as in CPython's
non-strict decoder; non-canonical placements of `=` are treated as
failures).  Exceptions are embedded as `Option`: a raised exception is
`none`, and the `try/except` boundary of `decrypt_api_key` converts
`none` into the empty-dict result.
-/

set_option maxRecDepth 20000
set_option maxHeartbeats 2000000

/-- Embedding of a Python `str`: a list of Unicode scalar values. -/
abbrev PyStr := List Char

/-- The set of characters stripped by Python's `str.strip()` and matched by
the regex class `\s` used by `strptime` (CPython's `Py_UNICODE_ISSPACE`). -/
def pyIsSpace (c : Char) : Bool :=
  let n := c.toNat
  (9 ≤ n && n ≤ 13) || (28 ≤ n && n ≤ 31) || n == 32 || n == 133 || n == 160 ||
    n == 5760 || (8192 ≤ n && n ≤ 8202) || n == 8232 || n == 8233 || n == 8239 ||
    n == 8287 || n == 12288

/-- Embedding of Python's `str.strip()` (no argument): remove leading and
trailing whitespace characters. -/
def pyStrip (s : PyStr) : PyStr :=
  ((s.dropWhile pyIsSpace).reverse.dropWhile pyIsSpace).reverse

/-- Embedding of Python's `text.split("|")` (single-character separator,
no maxsplit): split into the list of `|`-free segments, keeping empty
segments, with `[""]` for the empty string. -/
def splitPipe : PyStr → List PyStr
  | [] => [[]]
  | c :: rest =>
    if c = '|' then [] :: splitPipe rest
    else
      match splitPipe rest with
      | s :: ss => (c :: s) :: ss
      | [] => [[c]]

/-! ## UTF-8 (Python `str.encode("utf-8")` / `bytes.decode("utf-8")`, strict) -/

/-- UTF-8 encoding of one Unicode scalar value. -/
def utf8EncodeChar (c : Char) : List Nat :=
  let n := c.toNat
  if n < 0x80 then [n]
  else if n < 0x800 then [0xC0 + n / 64, 0x80 + n % 64]
  else if n < 0x10000 then [0xE0 + n / 4096, 0x80 + n / 64 % 64, 0x80 + n % 64]
  else [0xF0 + n / 262144, 0x80 + n / 4096 % 64, 0x80 + n / 64 % 64, 0x80 + n % 64]

/-- Embedding of Python's `str.encode("utf-8")`. -/
def utf8Encode (s : PyStr) : List Nat := s.flatMap utf8EncodeChar

/-- Strict UTF-8 decoding automaton, one byte per step.  `need` is the
number of continuation bytes still expected, `pend` the partial scalar
value, `lo`/`hi` the admissible range of the next continuation byte
(the first continuation byte after `0xE0`/`0xED`/`0xF0`/`0xF4` is
restricted, which rejects overlong encodings, surrogates and values
above `U+10FFFF`), and `acc` the reversed list of decoded characters. -/
def utf8DecodeAux (need pend lo hi : Nat) (acc : PyStr) : List Nat → Option PyStr
  | [] => if need = 0 then some acc.reverse else none
  | b :: rest =>
    if need = 0 then
      if b < 0x80 then utf8DecodeAux 0 0 0 0 (Char.ofNat b :: acc) rest
      else if b < 0xC2 then none
      else if b < 0xE0 then utf8DecodeAux 1 (b - 0xC0) 0x80 0xC0 acc rest
      else if b < 0xF0 then
        utf8DecodeAux 2 (b - 0xE0) (if b = 0xE0 then 0xA0 else 0x80)
          (if b = 0xED then 0xA0 else 0xC0) acc rest
      else if b < 0xF5 then
        utf8DecodeAux 3 (b - 0xF0) (if b = 0xF0 then 0x90 else 0x80)
          (if b = 0xF4 then 0x90 else 0xC0) acc rest
      else none
    else
      if lo ≤ b ∧ b < hi then
        if need = 1 then
          utf8DecodeAux 0 0 0 0 (Char.ofNat (pend * 64 + (b - 0x80)) :: acc) rest
        else utf8DecodeAux (need - 1) (pend * 64 + (b - 0x80)) 0x80 0xC0 acc rest
      else none

/-- Embedding of Python's `bytes.decode("utf-8")` with strict error
handling: rejects truncated sequences, stray continuation bytes, overlong
encodings, surrogates and values above `U+10FFFF`; `none` models the
raised `UnicodeDecodeError`. -/
def utf8Decode (bs : List Nat) : Option PyStr := utf8DecodeAux 0 0 0 0 [] bs

/-! ## URL-safe base64 (`base64.urlsafe_b64encode` / `urlsafe_b64decode`) -/

/-- The URL-safe base64 alphabet. -/
def b64Alphabet : PyStr :=
  "ABCDEFGHIJKLMNOPQRSTUVWXYZabcdefghijklmnopqrstuvwxyz0123456789-_".toList

/-- Encode one 6-bit value as a base64 character. -/
def b64Enc (v : Nat) : Char := b64Alphabet.getD v 'A'

/-- The 6-bit value of a base64 character.  `urlsafe_b64decode` first
translates `-`/`_` to `+`/`/` and then decodes with the standard
alphabet, so both alphabets are accepted here. -/
def b64CharVal (c : Char) : Option Nat :=
  if 'A' ≤ c && c ≤ 'Z' then some (c.toNat - 65)
  else if 'a' ≤ c && c ≤ 'z' then some (c.toNat - 97 + 26)
  else if '0' ≤ c && c ≤ '9' then some (c.toNat - 48 + 52)
  else if c = '-' || c = '+' then some 62
  else if c = '_' || c = '/' then some 63
  else none

/-- The data characters (without padding) of the base64 encoding. -/
def b64EncodeData : List Nat → PyStr
  | [] => []
  | [a] => [b64Enc (a / 4), b64Enc (a % 4 * 16)]
  | [a, b] => [b64Enc (a / 4), b64Enc (a % 4 * 16 + b / 16), b64Enc (b % 16 * 4)]
  | a :: b :: c :: rest =>
    b64Enc (a / 4) :: b64Enc (a % 4 * 16 + b / 16) :: b64Enc (b % 16 * 4 + c / 64) ::
      b64Enc (c % 64) :: b64EncodeData rest

/-- Embedding of Python's `base64.urlsafe_b64encode` (followed by
`.decode("utf-8")`, which is the identity on this ASCII output). -/
def urlsafeB64Encode (bs : List Nat) : PyStr :=
  b64EncodeData bs ++
    (if bs.length % 3 = 1 then ['=', '='] else if bs.length % 3 = 2 then ['='] else [])

/-- Decode a list of 6-bit values into bytes; the final group may have
2 or 3 values (4 and 2 unused low bits respectively); a trailing single
value is an error. -/
def b64DecodeVals : List Nat → Option (List Nat)
  | [] => some []
  | [_] => none
  | [a, b] => some [a * 4 + b / 16]
  | [a, b, c] => some [a * 4 + b / 16, b % 16 * 16 + c / 4]
  | a :: b :: c :: d :: rest =>
    match b64DecodeVals rest with
    | some tl => some ((a * 4 + b / 16) :: (b % 16 * 16 + c / 4) :: (c % 4 * 64 + d) :: tl)
    | none => none

/-- Embedding of Python's `base64.urlsafe_b64decode` on the canonical
domain: characters outside the alphabet are discarded (CPython's
non-strict decoder), `=` may appear only as final padding, and the kept
length must be a multiple of 4; `none` models a raised
`binascii.Error`. -/
def urlsafeB64Decode (s : PyStr) : Option (List Nat) :=
  let kept := s.filter (fun c => (b64CharVal c).isSome || c = '=')
  let dataChars := kept.takeWhile (fun c => c ≠ '=')
  let padChars := kept.drop dataChars.length
  if padChars.all (fun c => c = '=') = true ∧ padChars.length ≤ 2 ∧
      (dataChars.length + padChars.length) % 4 = 0 then
    b64DecodeVals (dataChars.filterMap b64CharVal)
  else none

/-! ## SHA-256 (`hashlib.sha256`), FIPS 180-4 -/

/-- 2 to the 32nd, the word modulus of SHA-256. -/
def w32 : Nat := 4294967296

/-- Right rotation of a 32-bit word. -/
def rotr32 (n x : Nat) : Nat := (x >>> n ||| x <<< (32 - n)) % w32

/-- SHA-256 Ch function; bitwise complement is XOR with `2^32 - 1`. -/
def shaCh (x y z : Nat) : Nat := (x &&& y) ^^^ ((x ^^^ (w32 - 1)) &&& z)

/-- SHA-256 Maj function. -/
def shaMaj (x y z : Nat) : Nat := (x &&& y) ^^^ (x &&& z) ^^^ (y &&& z)

/-- SHA-256 big Sigma-0. -/
def bigSigma0 (x : Nat) : Nat := rotr32 2 x ^^^ rotr32 13 x ^^^ rotr32 22 x

/-- SHA-256 big Sigma-1. -/
def bigSigma1 (x : Nat) : Nat := rotr32 6 x ^^^ rotr32 11 x ^^^ rotr32 25 x

/-- SHA-256 small sigma-0. -/
def smallSigma0 (x : Nat) : Nat := rotr32 7 x ^^^ rotr32 18 x ^^^ (x >>> 3)

/-- SHA-256 small sigma-1. -/
def smallSigma1 (x : Nat) : Nat := rotr32 17 x ^^^ rotr32 19 x ^^^ (x >>> 10)

/-- The SHA-256 round constants. -/
def shaK : List Nat :=
  [1116352408, 1899447441, 3049323471, 3921009573, 961987163,
   1508970993, 2453635748, 2870763221, 3624381080, 310598401,
   607225278, 1426881987, 1925078388, 2162078206, 2614888103,
   3248222580, 3835390401, 4022224774, 264347078, 604807628,
   770255983, 1249150122, 1555081692, 1996064986, 2554220882,
   2821834349, 2952996808, 3210313671, 3336571891, 3584528711,
   113926993, 338241895, 666307205, 773529912, 1294757372,
   1396182291, 1695183700, 1986661051, 2177026350, 2456956037,
   2730485921, 2820302411, 3259730800, 3345764771, 3516065817,
   3600352804, 4094571909, 275423344, 430227734, 506948616,
   659060556, 883997877, 958139571, 1322822218, 1537002063,
   1747873779, 1955562222, 2024104815, 2227730452, 2361852424,
   2428436474, 2756734187, 3204031479, 3329325298]

/-- The eight 32-bit working variables of the SHA-256 compression. -/
structure ShaState where
  a : Nat
  b : Nat
  c : Nat
  d : Nat
  e : Nat
  f : Nat
  g : Nat
  h : Nat
deriving Repr, DecidableEq

/-- The SHA-256 initial hash value. -/
def shaH0 : ShaState :=
  ⟨1779033703, 3144134277, 1013904242, 2773480762,
   1359893119, 2600822924, 528734635, 1541459225⟩

/-- One SHA-256 round; `kw` is the pair of round constant and schedule word. -/
def shaRound (s : ShaState) (kw : Nat × Nat) : ShaState :=
  let t1 := (s.h + bigSigma1 s.e + shaCh s.e s.f s.g + kw.1 + kw.2) % w32
  let t2 := (bigSigma0 s.a + shaMaj s.a s.b s.c) % w32
  ⟨(t1 + t2) % w32, s.a, s.b, s.c, (s.d + t1) % w32, s.e, s.f, s.g⟩

/-- Extend the 16-word message block by `n` further schedule words. -/
def shaExtend : Nat → List Nat → List Nat
  | 0, ws => ws
  | n + 1, ws =>
    let L := ws.length
    let nw := (smallSigma1 (ws.getD (L - 2) 0) + ws.getD (L - 7) 0 +
      smallSigma0 (ws.getD (L - 15) 0) + ws.getD (L - 16) 0) % w32
    shaExtend n (ws ++ [nw])

/-- The SHA-256 compression function on one 16-word block. -/
def shaCompress (s : ShaState) (block : List Nat) : ShaState :=
  let ws := shaExtend 48 block
  let t := (shaK.zip ws).foldl shaRound s
  ⟨(s.a + t.a) % w32, (s.b + t.b) % w32, (s.c + t.c) % w32, (s.d + t.d) % w32,
   (s.e + t.e) % w32, (s.f + t.f) % w32, (s.g + t.g) % w32, (s.h + t.h) % w32⟩

/-- Big-endian conversion of bytes to 32-bit words (4 bytes each). -/
def bytesToWords : List Nat → List Nat
  | b0 :: b1 :: b2 :: b3 :: rest =>
    (b0 * 16777216 + b1 * 65536 + b2 * 256 + b3) :: bytesToWords rest
  | _ => []

/-- Group a word list into 16-word blocks. -/
def words16 : List Nat → List (List Nat)
  | w0 :: w1 :: w2 :: w3 :: w4 :: w5 :: w6 :: w7 :: w8 :: w9 ::
      w10 :: w11 :: w12 :: w13 :: w14 :: w15 :: rest =>
    [w0, w1, w2, w3, w4, w5, w6, w7, w8, w9, w10, w11, w12, w13, w14, w15] ::
      words16 rest
  | _ => []

/-- The 8-byte big-endian encoding of the bit length. -/
def lenBytes64 (n : Nat) : List Nat :=
  [n >>> 56 % 256, n >>> 48 % 256, n >>> 40 % 256, n >>> 32 % 256,
   n >>> 24 % 256, n >>> 16 % 256, n >>> 8 % 256, n % 256]

/-- SHA-256 message padding: `0x80`, zeros to 56 mod 64, 8 length bytes. -/
def shaPad (msg : List Nat) : List Nat :=
  let L := msg.length
  msg ++ 0x80 :: List.replicate ((64 + 56 - (L + 1) % 64) % 64) 0 ++ lenBytes64 (L * 8)

/-- The four big-endian bytes of a 32-bit word. -/
def wordBytes (w : Nat) : List Nat :=
  [w >>> 24 % 256, w >>> 16 % 256, w >>> 8 % 256, w % 256]

/-- Embedding of `hashlib.sha256(msg).digest()`: the 32 digest bytes. -/
def sha256 (msg : List Nat) : List Nat :=
  let fin := (words16 (bytesToWords (shaPad msg))).foldl shaCompress shaH0
  wordBytes fin.a ++ wordBytes fin.b ++ wordBytes fin.c ++ wordBytes fin.d ++
    wordBytes fin.e ++ wordBytes fin.f ++ wordBytes fin.g ++ wordBytes fin.h

/-- The lowercase hexadecimal digit of a value below 16. -/
def hexDigit (v : Nat) : Char := ("0123456789abcdef".toList).getD v '0'

/-- Embedding of `hashlib.sha256(...).hexdigest()` applied to digest
bytes: two lowercase hex characters per byte. -/
def bytesToHex : List Nat → PyStr
  | [] => []
  | b :: rest => hexDigit (b / 16) :: hexDigit (b % 16) :: bytesToHex rest

/-! ## The token codec (`security_utils.py`) -/

/-- The marker prefix `"AI-TUTOR|"` used by the wire format. -/
def markerL : PyStr := "AI-TUTOR|".toList

/-- `security_utils._derive_key`: SHA-256 of
`f"AI-TUTOR|{machine_code}".encode("utf-8")`, the 32 raw digest bytes. -/
def _derive_key (machine_code : PyStr) : List Nat :=
  sha256 (utf8Encode (markerL ++ machine_code))

/-- The repeating-keystream XOR from index `i` on:
`byte ^ key[index % len(key)]`. -/
def xorCycleAux (key : List Nat) (i : Nat) : List Nat → List Nat
  | [] => []
  | b :: rest => (b ^^^ key.getD (i % key.length) 0) :: xorCycleAux key (i + 1) rest

/-- The repeating-keystream XOR of `encrypt_api_key`/`decrypt_api_key`:
`bytes(byte ^ key[index % len(key)] for index, byte in enumerate(data))`
(the key is always a 32-byte SHA-256 digest, hence non-empty). -/
def xorCycle (data key : List Nat) : List Nat := xorCycleAux key 0 data

/-- The four keys of the credential-payload dict built by
`decrypt_api_key`. -/
inductive PyField where
  | api_key
  | base_url
  | model
  | expire_at
deriving DecidableEq, Repr

/-- The observable results of `decrypt_api_key`: the empty dict `{}`
(returned on every failure) or a dict with the four credential keys. -/
inductive PyDict where
  | empty : PyDict
  | payload (api_key base_url model expire_at : PyStr) : PyDict
deriving DecidableEq, Repr

/-- Python `key in dict`: whether a credential field is present. -/
def PyDict.hasKey : PyDict → PyField → Bool
  | .empty, _ => false
  | .payload _ _ _ _, _ => true

/-- Python `dict.get(field, "")`: read a credential field, defaulting to
the empty string. -/
def PyDict.get : PyDict → PyField → PyStr
  | .empty, _ => []
  | .payload a _ _ _, .api_key => a
  | .payload _ b _ _, .base_url => b
  | .payload _ _ m _, .model => m
  | .payload _ _ _ e, .expire_at => e

/-- `security_utils.encrypt_api_key(api_key, machine_code, base_url="",
model="", expire_at="")`: guard on empty `api_key`/`machine_code`, strip
the three optional fields, build the v3 payload
`f"AI-TUTOR|v3|{api_key}|{base_url}|{model}|{expire_at}"` when any
optional field is non-empty and the legacy payload
`f"AI-TUTOR|{api_key}"` otherwise, XOR with the derived key, and encode
with URL-safe base64. -/
def encrypt_api_key (api_key machine_code : PyStr) (base_url : PyStr := [])
    (model : PyStr := []) (expire_at : PyStr := []) : PyStr :=
  if api_key = [] ∨ machine_code = [] then []
  else
    let base_url := pyStrip base_url
    let model := pyStrip model
    let expire_at := pyStrip expire_at
    let payload :=
      if base_url ≠ [] ∨ model ≠ [] ∨ expire_at ≠ [] then
        "AI-TUTOR|v3|".toList ++ api_key ++ "|".toList ++ base_url ++
          "|".toList ++ model ++ "|".toList ++ expire_at
      else markerL ++ api_key
    urlsafeB64Encode (xorCycle (utf8Encode payload) (_derive_key machine_code))

/-- Lines 84-102 of `security_utils.decrypt_api_key`: check the
`"AI-TUTOR|"` marker on the decoded text, then parse the v3 / v2 /
legacy-minimal `|`-separated payloads.  In the legacy branch,
`text.split("AI-TUTOR|", 1)[1]` is the text after the marker, since the
marker check guarantees the first occurrence is at index 0. -/
def parse_token_text (text : PyStr) : PyDict :=
  if markerL.isPrefixOf text then
    let parts := splitPipe text
    if 3 ≤ parts.length ∧ parts.getD 1 [] = "v3".toList then
      .payload (pyStrip (parts.getD 2 []))
        (if 3 < parts.length then pyStrip (parts.getD 3 []) else [])
        (if 4 < parts.length then pyStrip (parts.getD 4 []) else [])
        (if 5 < parts.length then pyStrip (parts.getD 5 []) else [])
    else if 3 ≤ parts.length ∧ parts.getD 1 [] = "v2".toList then
      .payload (pyStrip (parts.getD 2 []))
        (if 3 < parts.length then pyStrip (parts.getD 3 []) else [])
        (if 4 < parts.length then pyStrip (parts.getD 4 []) else [])
        []
    else
      .payload (pyStrip (text.drop markerL.length)) [] [] []
  else .empty

/-- `security_utils.decrypt_api_key(token, machine_code)`: guard on empty
inputs, base64-decode, XOR with the derived key, UTF-8-decode, then
check the marker and parse (`parse_token_text`).  Failures of the
decoding steps (`none`) model the exceptions swallowed by the
`try/except` and yield the empty dict. -/
def decrypt_api_key (token machine_code : PyStr) : PyDict :=
  if token = [] ∨ machine_code = [] then .empty
  else
    match urlsafeB64Decode token with
    | none => .empty
    | some cipher =>
      match utf8Decode (xorCycle cipher (_derive_key machine_code)) with
      | none => .empty
      | some text => parse_token_text text

/-! ## Machine code (`security_utils.get_machine_code`) -/

/-- The host-identifying sources read by `get_machine_code`:
`_get_windows_machine_guid()` (empty when unavailable, since every
failure is swallowed into `""`), `platform.system()`,
`platform.release()`, `platform.node()` (each may be empty when the
value cannot be determined) and `uuid.getnode()` (an integer). -/
structure HostEnv where
  machine_guid : PyStr
  system : PyStr
  release : PyStr
  node : PyStr
  getnode : Nat

/-- The body of `get_machine_code` after the `parts` list is collected:
drop empty entries, join with `"|"`, substitute `"AI-TUTOR-UNKNOWN"`
when nothing is available, hash with SHA-256, render as uppercase hex
and truncate to 32 characters. -/
def machine_code_from_parts (parts : List PyStr) : PyStr :=
  let raw := List.intercalate ['|'] (parts.filter (· ≠ []))
  let raw := if raw = [] then "AI-TUTOR-UNKNOWN".toList else raw
  ((bytesToHex (sha256 (utf8Encode raw))).map Char.toUpper).take 32

/-- `security_utils.get_machine_code()`: collect the identifying parts
(the Windows machine GUID only when non-empty, then `platform.system()`,
`platform.release()`, `platform.node()` and `str(uuid.getnode())`) and
derive the 32-character code. -/
def get_machine_code (env : HostEnv) : PyStr :=
  machine_code_from_parts
    ((if env.machine_guid ≠ [] then [env.machine_guid] else []) ++
      [env.system, env.release, env.node, (Nat.repr env.getnode).toList])

/-! ## Expiry check (`app.py`) -/

/-- A Python `datetime.datetime` value: `strptime` with the formats used
here leaves seconds and microseconds at 0, while `datetime.now()` may
carry any values. -/
structure PyDateTime where
  year : Nat
  month : Nat
  day : Nat
  hour : Nat
  minute : Nat
  second : Nat
  microsecond : Nat
deriving DecidableEq, Repr

/-- Python `datetime` comparison `a <= b`: lexicographic on the fields. -/
def dtLe (a b : PyDateTime) : Bool :=
  if a.year ≠ b.year then a.year < b.year
  else if a.month ≠ b.month then a.month < b.month
  else if a.day ≠ b.day then a.day < b.day
  else if a.hour ≠ b.hour then a.hour < b.hour
  else if a.minute ≠ b.minute then a.minute < b.minute
  else if a.second ≠ b.second then a.second < b.second
  else a.microsecond ≤ b.microsecond

/-- Gregorian leap-year rule, as used by `datetime`. -/
def isLeapYear (y : Nat) : Bool := y % 4 = 0 && (y % 100 ≠ 0 || y % 400 = 0)

/-- Days in a month, as validated by the `datetime` constructor. -/
def daysInMonth (y m : Nat) : Nat :=
  if m = 2 then (if isLeapYear y then 29 else 28)
  else if m = 4 ∨ m = 6 ∨ m = 9 ∨ m = 11 then 30
  else 31

/-- The numeric value of a digit run. -/
def digitsToNat (ds : PyStr) : Nat := ds.foldl (fun a c => a * 10 + (c.toNat - 48)) 0

/-- Embedding of `datetime.strptime(s, f"%Y{sep}%m{sep}%d %H:%M")` for a
one-character date separator, following CPython's `_strptime` regex:
`%Y` is exactly 4 digits, `%m`/`%d`/`%H`/`%M` are 1-2 digit runs in
range (a following non-digit bounds each run), the format's space
matches one or more whitespace characters, the whole string must be
consumed, and the `datetime` constructor additionally requires a
positive year and a calendar-valid day.  `none` models the
`ValueError` caught by `parse_expire_at`. -/
def strpYmdHM (sep : Char) (s : PyStr) : Option PyDateTime :=
  let ys := s.takeWhile Char.isDigit
  let r1 := s.dropWhile Char.isDigit
  if ys.length = 4 then
    match r1 with
    | c1 :: r2 =>
      if c1 = sep then
        let ms := r2.takeWhile Char.isDigit
        let r3 := r2.dropWhile Char.isDigit
        if 1 ≤ ms.length ∧ ms.length ≤ 2 ∧ 1 ≤ digitsToNat ms ∧ digitsToNat ms ≤ 12 then
          match r3 with
          | c2 :: r4 =>
            if c2 = sep then
              let ds := r4.takeWhile Char.isDigit
              let r5 := r4.dropWhile Char.isDigit
              if 1 ≤ ds.length ∧ ds.length ≤ 2 ∧ 1 ≤ digitsToNat ds ∧ digitsToNat ds ≤ 31 then
                let sp := r5.takeWhile pyIsSpace
                let r6 := r5.dropWhile pyIsSpace
                if 1 ≤ sp.length then
                  let hs := r6.takeWhile Char.isDigit
                  let r7 := r6.dropWhile Char.isDigit
                  if 1 ≤ hs.length ∧ hs.length ≤ 2 ∧ digitsToNat hs ≤ 23 then
                    match r7 with
                    | ':' :: r8 =>
                      let mins := r8.takeWhile Char.isDigit
                      let r9 := r8.dropWhile Char.isDigit
                      if 1 ≤ mins.length ∧ mins.length ≤ 2 ∧ digitsToNat mins ≤ 59 ∧
                          r9 = [] then
                        if 1 ≤ digitsToNat ys ∧
                            digitsToNat ds ≤ daysInMonth (digitsToNat ys) (digitsToNat ms) then
                          some ⟨digitsToNat ys, digitsToNat ms, digitsToNat ds,
                            digitsToNat hs, digitsToNat mins, 0, 0⟩
                        else none
                      else none
                    | _ => none
                  else none
                else none
              else none
            else none
          | [] => none
        else none
      else none
    | [] => none
  else none

/-- `app.parse_expire_at(expire_at_text)`: `None` for empty text, then
try `"%Y-%m-%d %H:%M"` and `"%Y/%m/%d %H:%M"` in order, `None` when
both raise `ValueError`. -/
def parse_expire_at (s : PyStr) : Option PyDateTime :=
  if s = [] then none
  else
    match strpYmdHM '-' s with
    | some dt => some dt
    | none => strpYmdHM '/' s

/-- `app.is_token_expired(expire_at_text)`: `False` when nothing parses
(a `datetime` object is always truthy, so `not expire_dt` tests `None`),
otherwise `datetime.now() >= expire_dt`; the current time is an explicit
parameter of the embedding. -/
def is_token_expired (now : PyDateTime) (s : PyStr) : Bool :=
  match parse_expire_at s with
  | none => false
  | some dt => dtLe dt now

/-! ## Lemmas about `pyStrip` -/

theorem dropWhile_dropWhile (p : α → Bool) (l : List α) :
    (l.dropWhile p).dropWhile p = l.dropWhile p := by
  induction l with
  | nil => rfl
  | cons c t ih =>
    by_cases h : p c
    · simp [List.dropWhile_cons, h, ih]
    · simp [List.dropWhile_cons, h]

theorem head?_dropWhile (p : α → Bool) {l : List α} {c : α}
    (h : (l.dropWhile p).head? = some c) : p c = false := by
  induction l with
  | nil => simp at h
  | cons a t ih =>
    by_cases hp : p a
    · rw [List.dropWhile_cons, if_pos hp] at h
      exact ih h
    · rw [List.dropWhile_cons, if_neg hp] at h
      simp only [List.head?_cons, Option.some.injEq] at h
      rw [← h]
      simp only [Bool.not_eq_true] at hp
      exact hp

theorem dropWhile_eq_self_of_head {p : α → Bool} {l : List α} {c : α}
    (h : l.head? = some c) (hc : p c = false) : l.dropWhile p = l := by
  cases l with
  | nil => rfl
  | cons a t =>
    simp only [List.head?_cons, Option.some.injEq] at h
    rw [List.dropWhile_cons, h, hc]
    simp

theorem mem_dropWhile {p : α → Bool} {l : List α} {a : α}
    (h : a ∈ l.dropWhile p) : a ∈ l := by
  obtain ⟨t, ht⟩ := List.dropWhile_suffix (l := l) p
  rw [← ht]
  exact List.mem_append_right t h

theorem pyStrip_subset {s : PyStr} {a : Char} (h : a ∈ pyStrip s) : a ∈ s := by
  unfold pyStrip at h
  rw [List.mem_reverse] at h
  have h2 := mem_dropWhile h
  rw [List.mem_reverse] at h2
  exact mem_dropWhile h2

theorem pipe_notMem_pyStrip {s : PyStr} (h : '|' ∉ s) : '|' ∉ pyStrip s :=
  fun hc => h (pyStrip_subset hc)

theorem getLast?_dropWhile_of_ne_nil (p : α → Bool) (l : List α)
    (h : l.dropWhile p ≠ []) : (l.dropWhile p).getLast? = l.getLast? := by
  obtain ⟨t, ht⟩ := List.dropWhile_suffix (l := l) p
  conv_rhs => rw [← ht]
  exact (List.getLast?_append_of_ne_nil t h).symm

theorem dropWhile_reverse_dropWhile (p : α → Bool) (l : List α) :
    ((l.dropWhile p).reverse.dropWhile p).reverse.dropWhile p =
      ((l.dropWhile p).reverse.dropWhile p).reverse := by
  set A := l.dropWhile p with hA
  cases hm : (A.reverse.dropWhile p).reverse with
  | nil => simp [hm]
  | cons c0 t0 =>
    have hne : A.reverse.dropWhile p ≠ [] := by
      intro hcon
      rw [hcon] at hm
      simp at hm
    have hAne : A ≠ [] := by
      intro hcon
      rw [hcon] at hne
      simp at hne
    have hlast : (A.reverse.dropWhile p).getLast? = A.reverse.getLast? :=
      getLast?_dropWhile_of_ne_nil p A.reverse hne
    have hrev : A.reverse.getLast? = A.head? := by
      rw [← List.head?_reverse, List.reverse_reverse]
    obtain ⟨c, hc⟩ : ∃ c, A.head? = some c := by
      cases hA2 : A with
      | nil => exact absurd hA2 hAne
      | cons x xs => exact ⟨x, by simp [hA2]⟩
    have hpc : p c = false := head?_dropWhile p (hA ▸ hc)
    have hhead : ((A.reverse.dropWhile p).reverse).head? = some c := by
      rw [List.head?_reverse, hlast, hrev, hc]
    rw [← hm]
    exact dropWhile_eq_self_of_head hhead hpc

theorem pyStrip_idem (s : PyStr) : pyStrip (pyStrip s) = pyStrip s := by
  unfold pyStrip
  rw [dropWhile_reverse_dropWhile pyIsSpace s, List.reverse_reverse,
    dropWhile_dropWhile]

/-! ## Lemmas about `splitPipe` -/

theorem splitPipe_ne_nil (l : PyStr) : splitPipe l ≠ [] := by
  cases l with
  | nil => simp [splitPipe]
  | cons c rest =>
    by_cases h : c = '|'
    · simp [splitPipe, h]
    · simp only [splitPipe, if_neg h]
      cases splitPipe rest <;> simp

theorem splitPipe_no_pipe {l : PyStr} (h : '|' ∉ l) : splitPipe l = [l] := by
  induction l with
  | nil => rfl
  | cons c rest ih =>
    have hc : ¬ c = '|' := fun hc => h (by simp [hc])
    have hr : '|' ∉ rest := fun hr => h (by simp [hr])
    simp only [splitPipe, if_neg hc, ih hr]

theorem splitPipe_append_pipe {xs : PyStr} (ys : PyStr) (h : '|' ∉ xs) :
    splitPipe (xs ++ '|' :: ys) = xs :: splitPipe ys := by
  induction xs with
  | nil => simp [splitPipe]
  | cons c rest ih =>
    have hc : ¬ c = '|' := fun hc => h (by simp [hc])
    have hr : '|' ∉ rest := fun hr => h (by simp [hr])
    simp only [List.cons_append, splitPipe, List.append_eq, if_neg hc, ih hr]

theorem splitPipe_cons_cons {k s t : PyStr} {ts : List PyStr}
    (h : splitPipe k = s :: t :: ts) :
    ∃ r, k = s ++ '|' :: r ∧ splitPipe r = t :: ts := by
  induction k generalizing s with
  | nil => simp [splitPipe] at h
  | cons c rest ih =>
    by_cases hc : c = '|'
    · simp only [splitPipe, if_pos hc] at h
      obtain ⟨h1, h2⟩ := List.cons_eq_cons.mp h
      exact ⟨rest, by simp [← h1, hc], h2⟩
    · simp only [splitPipe, if_neg hc] at h
      cases hsp : splitPipe rest with
      | nil => exact absurd hsp (splitPipe_ne_nil rest)
      | cons s' ss =>
        rw [hsp] at h
        obtain ⟨h1, h2⟩ := List.cons_eq_cons.mp h
        have : splitPipe rest = s' :: t :: ts := by rw [hsp, h2]
        obtain ⟨r, hr1, hr2⟩ := ih this
        exact ⟨r, by simp [← h1, hr1], hr2⟩

/-! ## Lemmas about the UTF-8 embedding -/

theorem utf8EncodeChar_ne_nil (c : Char) : utf8EncodeChar c ≠ [] := by
  simp only [utf8EncodeChar]
  split <;> simp_all
  split <;> simp_all
  split <;> simp_all

theorem utf8EncodeChar_lt (c : Char) : ∀ b ∈ utf8EncodeChar c, b < 256 := by
  have hv : c.toNat < 0xd800 ∨ (0xdfff < c.toNat ∧ c.toNat < 0x110000) := c.valid
  have hv' : c.toNat < 0x110000 := by
    rcases hv with hv | hv
    · omega
    · exact hv.2
  by_cases h1 : c.toNat < 0x80
  · have he : utf8EncodeChar c = [c.toNat] := by simp [utf8EncodeChar, h1]
    rw [he]
    intro b hb
    simp only [List.mem_singleton] at hb
    omega
  · by_cases h2 : c.toNat < 0x800
    · have he : utf8EncodeChar c = [0xC0 + c.toNat / 64, 0x80 + c.toNat % 64] := by
        simp [utf8EncodeChar, h1, h2]
      rw [he]
      intro b hb
      simp only [List.mem_cons, List.not_mem_nil, or_false] at hb
      rcases hb with rfl | rfl <;> omega
    · by_cases h3 : c.toNat < 0x10000
      · have he : utf8EncodeChar c =
            [0xE0 + c.toNat / 4096, 0x80 + c.toNat / 64 % 64, 0x80 + c.toNat % 64] := by
          simp [utf8EncodeChar, h1, h2, h3]
        rw [he]
        intro b hb
        simp only [List.mem_cons, List.not_mem_nil, or_false] at hb
        rcases hb with rfl | rfl | rfl <;> omega
      · have he : utf8EncodeChar c =
            [0xF0 + c.toNat / 262144, 0x80 + c.toNat / 4096 % 64,
              0x80 + c.toNat / 64 % 64, 0x80 + c.toNat % 64] := by
          simp [utf8EncodeChar, h1, h2, h3]
        rw [he]
        intro b hb
        simp only [List.mem_cons, List.not_mem_nil, or_false] at hb
        rcases hb with rfl | rfl | rfl | rfl <;> omega

theorem utf8DecodeAux_nil (need pend lo hi : Nat) (acc : PyStr) :
    utf8DecodeAux need pend lo hi acc [] = if need = 0 then some acc.reverse else none :=
  rfl

theorem utf8DecodeAux_cons (need pend lo hi : Nat) (acc : PyStr) (b : Nat)
    (rest : List Nat) :
    utf8DecodeAux need pend lo hi acc (b :: rest) =
      if need = 0 then
        if b < 0x80 then utf8DecodeAux 0 0 0 0 (Char.ofNat b :: acc) rest
        else if b < 0xC2 then none
        else if b < 0xE0 then utf8DecodeAux 1 (b - 0xC0) 0x80 0xC0 acc rest
        else if b < 0xF0 then
          utf8DecodeAux 2 (b - 0xE0) (if b = 0xE0 then 0xA0 else 0x80)
            (if b = 0xED then 0xA0 else 0xC0) acc rest
        else if b < 0xF5 then
          utf8DecodeAux 3 (b - 0xF0) (if b = 0xF0 then 0x90 else 0x80)
            (if b = 0xF4 then 0x90 else 0xC0) acc rest
        else none
      else
        if lo ≤ b ∧ b < hi then
          if need = 1 then
            utf8DecodeAux 0 0 0 0 (Char.ofNat (pend * 64 + (b - 0x80)) :: acc) rest
          else utf8DecodeAux (need - 1) (pend * 64 + (b - 0x80)) 0x80 0xC0 acc rest
        else none := by
  rw [utf8DecodeAux.eq_def]

theorem utf8DecodeAux_encodeChar (c : Char) (acc : PyStr) (bs : List Nat) :
    utf8DecodeAux 0 0 0 0 acc (utf8EncodeChar c ++ bs) =
      utf8DecodeAux 0 0 0 0 (c :: acc) bs := by
  have hv : c.toNat < 0xd800 ∨ (0xdfff < c.toNat ∧ c.toNat < 0x110000) := c.valid
  have hofn : Char.ofNat c.toNat = c := Char.ofNat_toNat c
  by_cases h1 : c.toNat < 0x80
  · have he : utf8EncodeChar c = [c.toNat] := by
      simp only [utf8EncodeChar]
      rw [if_pos h1]
    rw [he, List.singleton_append, utf8DecodeAux_cons]
    rw [if_pos rfl, if_pos h1, hofn]
  · by_cases h2 : c.toNat < 0x800
    · have he : utf8EncodeChar c = [0xC0 + c.toNat / 64, 0x80 + c.toNat % 64] := by
        simp only [utf8EncodeChar]
        rw [if_neg h1, if_pos h2]
      rw [he]
      simp only [List.cons_append, List.nil_append]
      rw [utf8DecodeAux_cons, if_pos rfl, if_neg (by omega), if_neg (by omega),
        if_pos (by omega)]
      rw [utf8DecodeAux_cons, if_neg (by omega), if_pos (by omega), if_pos rfl]
      rw [show (0xC0 + c.toNat / 64 - 0xC0) * 64 + (0x80 + c.toNat % 64 - 0x80) =
        c.toNat by omega, hofn]
    · by_cases h3 : c.toNat < 0x10000
      · have he : utf8EncodeChar c =
            [0xE0 + c.toNat / 4096, 0x80 + c.toNat / 64 % 64, 0x80 + c.toNat % 64] := by
          simp only [utf8EncodeChar]
          rw [if_neg h1, if_neg h2, if_pos h3]
        rw [he]
        simp only [List.cons_append, List.nil_append]
        rw [utf8DecodeAux_cons, if_pos rfl, if_neg (by omega), if_neg (by omega),
          if_neg (by omega), if_pos (by omega)]
        have hcond : (if 0xE0 + c.toNat / 4096 = 0xE0 then 0xA0 else 0x80) ≤
            0x80 + c.toNat / 64 % 64 ∧
            0x80 + c.toNat / 64 % 64 <
              (if 0xE0 + c.toNat / 4096 = 0xED then 0xA0 else 0xC0) := by
          rcases hv with hv | hv
          · refine ⟨?_, ?_⟩
            · split <;> omega
            · split <;> omega
          · refine ⟨?_, ?_⟩
            · split <;> omega
            · split <;> omega
        rw [utf8DecodeAux_cons, if_neg (by omega), if_pos hcond, if_neg (by omega)]
        rw [utf8DecodeAux_cons, if_neg (by omega), if_pos (by omega), if_pos rfl]
        rw [show ((0xE0 + c.toNat / 4096 - 0xE0) * 64 +
          (0x80 + c.toNat / 64 % 64 - 0x80)) * 64 + (0x80 + c.toNat % 64 - 0x80) =
          c.toNat by omega, hofn]
      · have hv4 : c.toNat < 0x110000 := by
          rcases hv with hv | hv
          · omega
          · exact hv.2
        have he : utf8EncodeChar c =
            [0xF0 + c.toNat / 262144, 0x80 + c.toNat / 4096 % 64,
              0x80 + c.toNat / 64 % 64, 0x80 + c.toNat % 64] := by
          simp only [utf8EncodeChar]
          rw [if_neg h1, if_neg h2, if_neg h3]
        rw [he]
        simp only [List.cons_append, List.nil_append]
        rw [utf8DecodeAux_cons, if_pos rfl, if_neg (by omega), if_neg (by omega),
          if_neg (by omega), if_neg (by omega), if_pos (by omega)]
        have hcond : (if 0xF0 + c.toNat / 262144 = 0xF0 then 0x90 else 0x80) ≤
            0x80 + c.toNat / 4096 % 64 ∧
            0x80 + c.toNat / 4096 % 64 <
              (if 0xF0 + c.toNat / 262144 = 0xF4 then 0x90 else 0xC0) := by
          refine ⟨?_, ?_⟩
          · split <;> omega
          · split <;> omega
        rw [utf8DecodeAux_cons, if_neg (by omega), if_pos hcond, if_neg (by omega)]
        rw [utf8DecodeAux_cons, if_neg (by omega), if_pos (by omega), if_neg (by omega)]
        rw [utf8DecodeAux_cons, if_neg (by omega), if_pos (by omega), if_pos rfl]
        rw [show (((0xF0 + c.toNat / 262144 - 0xF0) * 64 +
          (0x80 + c.toNat / 4096 % 64 - 0x80)) * 64 +
          (0x80 + c.toNat / 64 % 64 - 0x80)) * 64 + (0x80 + c.toNat % 64 - 0x80) =
          c.toNat by omega, hofn]

theorem utf8DecodeAux_encode (s : PyStr) (acc : PyStr) :
    utf8DecodeAux 0 0 0 0 acc (utf8Encode s) = some (acc.reverse ++ s) := by
  induction s generalizing acc with
  | nil =>
    show utf8DecodeAux 0 0 0 0 acc [] = _
    rw [utf8DecodeAux_nil, if_pos rfl]
    simp
  | cons c t ih =>
    rw [show utf8Encode (c :: t) = utf8EncodeChar c ++ utf8Encode t by
      simp [utf8Encode], utf8DecodeAux_encodeChar, ih]
    simp

theorem utf8Encode_rt (s : PyStr) : utf8Decode (utf8Encode s) = some s := by
  rw [utf8Decode, utf8DecodeAux_encode]
  simp

theorem utf8Encode_ne_nil {s : PyStr} (h : s ≠ []) : utf8Encode s ≠ [] := by
  cases s with
  | nil => exact absurd rfl h
  | cons c t =>
    have : utf8Encode (c :: t) = utf8EncodeChar c ++ utf8Encode t := by
      simp [utf8Encode]
    rw [this]
    simp [utf8EncodeChar_ne_nil c]

theorem utf8Encode_lt (s : PyStr) : ∀ b ∈ utf8Encode s, b < 256 := by
  intro b hb
  simp only [utf8Encode, List.mem_flatMap] at hb
  obtain ⟨c, _, hbc⟩ := hb
  exact utf8EncodeChar_lt c b hbc

/-! ## Lemmas about the base64 embedding -/

theorem b64CharVal_enc : ∀ v, v < 64 → b64CharVal (b64Enc v) = some v := by decide

theorem b64Enc_isSome : ∀ v, v < 64 → (b64CharVal (b64Enc v)).isSome = true := by decide

theorem b64Enc_ne_pad : ∀ v, v < 64 → b64Enc v ≠ '=' := by decide

theorem b64EncodeData_valid {bs : List Nat} (h : ∀ b ∈ bs, b < 256) :
    ∀ ch ∈ b64EncodeData bs, (b64CharVal ch).isSome = true ∧ ch ≠ '=' := by
  induction bs using b64EncodeData.induct with
  | case1 => simp [b64EncodeData]
  | case2 a =>
    have ha : a < 256 := h a (by simp)
    intro ch hch
    simp only [b64EncodeData, List.mem_cons, List.not_mem_nil, or_false] at hch
    rcases hch with rfl | rfl <;>
      exact ⟨b64Enc_isSome _ (by omega), b64Enc_ne_pad _ (by omega)⟩
  | case3 a b =>
    have ha : a < 256 := h a (by simp)
    have hb : b < 256 := h b (by simp)
    intro ch hch
    simp only [b64EncodeData, List.mem_cons, List.not_mem_nil, or_false] at hch
    rcases hch with rfl | rfl | rfl <;>
      exact ⟨b64Enc_isSome _ (by omega), b64Enc_ne_pad _ (by omega)⟩
  | case4 a b c rest ih =>
    have ha : a < 256 := h a (by simp)
    have hb : b < 256 := h b (by simp)
    have hc : c < 256 := h c (by simp)
    have hrest : ∀ x ∈ rest, x < 256 := fun x hx => h x (by simp [hx])
    intro ch hch
    simp only [b64EncodeData, List.mem_cons] at hch
    rcases hch with rfl | rfl | rfl | rfl | hch
    · exact ⟨b64Enc_isSome _ (by omega), b64Enc_ne_pad _ (by omega)⟩
    · exact ⟨b64Enc_isSome _ (by omega), b64Enc_ne_pad _ (by omega)⟩
    · exact ⟨b64Enc_isSome _ (by omega), b64Enc_ne_pad _ (by omega)⟩
    · exact ⟨b64Enc_isSome _ (by omega), b64Enc_ne_pad _ (by omega)⟩
    · exact ih hrest ch hch

theorem b64EncodeData_length (bs : List Nat) :
    (b64EncodeData bs).length = (bs.length * 4 + 2) / 3 := by
  induction bs using b64EncodeData.induct with
  | case1 => simp [b64EncodeData]
  | case2 a => simp [b64EncodeData]
  | case3 a b => simp [b64EncodeData]
  | case4 a b c rest ih =>
    simp only [b64EncodeData, List.length_cons, ih]
    omega

theorem b64DecodeVals_encodeData {bs : List Nat} (h : ∀ b ∈ bs, b < 256) :
    b64DecodeVals ((b64EncodeData bs).filterMap b64CharVal) = some bs := by
  induction bs using b64EncodeData.induct with
  | case1 => simp [b64EncodeData, b64DecodeVals]
  | case2 a =>
    have ha : a < 256 := h a (by simp)
    simp only [b64EncodeData, List.filterMap_cons, b64CharVal_enc _ (by omega : a / 4 < 64),
      b64CharVal_enc _ (by omega : a % 4 * 16 < 64), List.filterMap_nil]
    simp only [b64DecodeVals, Option.some.injEq, List.cons.injEq, and_true]
    omega
  | case3 a b =>
    have ha : a < 256 := h a (by simp)
    have hb : b < 256 := h b (by simp)
    simp only [b64EncodeData, List.filterMap_cons, b64CharVal_enc _ (by omega : a / 4 < 64),
      b64CharVal_enc _ (by omega : a % 4 * 16 + b / 16 < 64),
      b64CharVal_enc _ (by omega : b % 16 * 4 < 64), List.filterMap_nil]
    simp only [b64DecodeVals, Option.some.injEq, List.cons.injEq, and_true]
    constructor
    · omega
    · omega
  | case4 a b c rest ih =>
    have ha : a < 256 := h a (by simp)
    have hb : b < 256 := h b (by simp)
    have hc : c < 256 := h c (by simp)
    have hrest : ∀ x ∈ rest, x < 256 := fun x hx => h x (by simp [hx])
    simp only [b64EncodeData, List.filterMap_cons, b64CharVal_enc _ (by omega : a / 4 < 64),
      b64CharVal_enc _ (by omega : a % 4 * 16 + b / 16 < 64),
      b64CharVal_enc _ (by omega : b % 16 * 4 + c / 64 < 64),
      b64CharVal_enc _ (by omega : c % 64 < 64)]
    simp only [b64DecodeVals, ih hrest, Option.some.injEq, List.cons.injEq]
    refine ⟨by omega, by omega, by omega, trivial⟩

theorem takeWhile_append_all {p : α → Bool} {xs : List α} (ys : List α)
    (h : ∀ x ∈ xs, p x = true) :
    (xs ++ ys).takeWhile p = xs ++ ys.takeWhile p := by
  induction xs with
  | nil => simp
  | cons a t ih =>
    simp only [List.cons_append, List.takeWhile_cons, h a (by simp)]
    rw [ih (fun x hx => h x (by simp [hx]))]
    simp

theorem b64_rt {bs : List Nat} (h : ∀ b ∈ bs, b < 256) :
    urlsafeB64Decode (urlsafeB64Encode bs) = some bs := by
  have hvalid := b64EncodeData_valid h
  have hlen := b64EncodeData_length bs
  set E := b64EncodeData bs with hE
  set P : PyStr := if bs.length % 3 = 1 then ['=', '='] else
    if bs.length % 3 = 2 then ['='] else [] with hP
  have hPall : ∀ x ∈ P, x = '=' := by
    rw [hP]
    split
    · simp
    · split <;> simp
  have henc : urlsafeB64Encode bs = E ++ P := rfl
  have hfilter : (E ++ P).filter (fun c => (b64CharVal c).isSome || c = '=') = E ++ P := by
    rw [List.filter_eq_self]
    intro x hx
    rcases List.mem_append.mp hx with hx | hx
    · simp [(hvalid x hx).1]
    · simp [hPall x hx]
  have htake : (E ++ P).takeWhile (fun c => c ≠ '=') = E := by
    rw [takeWhile_append_all P (fun x hx => by simp [(hvalid x hx).2])]
    have : P.takeWhile (fun c => c ≠ '=') = [] := by
      rw [hP]
      split
      · simp
      · split <;> simp
    rw [this, List.append_nil]
  have hdrop : (E ++ P).drop E.length = P := List.drop_left E P
  rw [henc]
  show (let kept := (E ++ P).filter (fun c => (b64CharVal c).isSome || c = '=')
    let dataChars := kept.takeWhile (fun c => c ≠ '=')
    let padChars := kept.drop dataChars.length
    if padChars.all (fun c => c = '=') = true ∧ padChars.length ≤ 2 ∧
        (dataChars.length + padChars.length) % 4 = 0 then
      b64DecodeVals (dataChars.filterMap b64CharVal)
    else none) = some bs
  simp only [hfilter, htake, hdrop]
  have hguard : P.all (fun c => c = '=') = true ∧ P.length ≤ 2 ∧
      (E.length + P.length) % 4 = 0 := by
    refine ⟨List.all_eq_true.mpr (fun x hx => by simp [hPall x hx]), ?_, ?_⟩
    · rw [hP]
      split
      · simp
      · split <;> simp
    · rw [hP]
      have h3 : bs.length % 3 = 0 ∨ bs.length % 3 = 1 ∨ bs.length % 3 = 2 := by omega
      rcases h3 with h3 | h3 | h3 <;> simp [h3] <;> omega
  rw [if_pos hguard]
  exact b64DecodeVals_encodeData h

theorem b64EncodeData_cons_ne_nil (a : Nat) (t : List Nat) :
    b64EncodeData (a :: t) ≠ [] := by
  match t with
  | [] => simp [b64EncodeData]
  | [b] => simp [b64EncodeData]
  | b :: c :: rest => simp [b64EncodeData]

theorem urlsafeB64Encode_ne_nil {bs : List Nat} (h : bs ≠ []) :
    urlsafeB64Encode bs ≠ [] := by
  cases bs with
  | nil => exact absurd rfl h
  | cons a t =>
    unfold urlsafeB64Encode
    simp [b64EncodeData_cons_ne_nil a t]

/-! ## Lemmas about SHA-256, the derived key and the XOR keystream -/

theorem sha256_length (msg : List Nat) : (sha256 msg).length = 32 := by
  simp [sha256, wordBytes]

theorem sha256_lt (msg : List Nat) : ∀ b ∈ sha256 msg, b < 256 := by
  intro b hb
  simp only [sha256, wordBytes, List.mem_append, List.mem_cons,
    List.not_mem_nil, or_false] at hb
  rcases hb with ((h | h | h | h) | h | h | h | h) | (h | h | h | h) |
    (h | h | h | h) | (h | h | h | h) | (h | h | h | h) | (h | h | h | h) |
    (h | h | h | h) <;> omega

theorem _derive_key_lt (mc : PyStr) : ∀ b ∈ _derive_key mc, b < 256 :=
  sha256_lt _

theorem xorCycleAux_length (key : List Nat) (i : Nat) (data : List Nat) :
    (xorCycleAux key i data).length = data.length := by
  induction data generalizing i with
  | nil => rfl
  | cons b rest ih => simp [xorCycleAux, ih]

theorem xorCycle_length (data key : List Nat) : (xorCycle data key).length = data.length :=
  xorCycleAux_length key 0 data

theorem xorCycleAux_involution (key : List Nat) (i : Nat) (data : List Nat) :
    xorCycleAux key i (xorCycleAux key i data) = data := by
  induction data generalizing i with
  | nil => rfl
  | cons b rest ih =>
    simp only [xorCycleAux, Nat.xor_cancel_right, ih]

theorem xorCycle_involution (data key : List Nat) :
    xorCycle (xorCycle data key) key = data :=
  xorCycleAux_involution key 0 data

theorem getD_lt_of_all_lt {key : List Nat} (h : ∀ k ∈ key, k < 256) (j : Nat) :
    key.getD j 0 < 256 := by
  by_cases hj : j < key.length
  · rw [List.getD_eq_getElem key 0 hj]
    exact h _ (List.getElem_mem hj)
  · rw [List.getD_eq_default key 0 (by omega)]
    omega

theorem xorCycleAux_lt {key data : List Nat} (hk : ∀ k ∈ key, k < 256)
    (hd : ∀ b ∈ data, b < 256) (i : Nat) : ∀ b ∈ xorCycleAux key i data, b < 256 := by
  induction data generalizing i with
  | nil => simp [xorCycleAux]
  | cons b rest ih =>
    intro x hx
    simp only [xorCycleAux, List.mem_cons] at hx
    rcases hx with rfl | hx
    · have h1 : b < 2 ^ 8 := by
        have := hd b (by simp)
        omega
      have h2 : key.getD (i % key.length) 0 < 2 ^ 8 := by
        have := getD_lt_of_all_lt hk (i % key.length)
        omega
      have := Nat.xor_lt_two_pow h1 h2
      omega
    · exact ih (fun y hy => hd y (by simp [hy])) (i + 1) x hx

theorem xorCycle_lt {key data : List Nat} (hk : ∀ k ∈ key, k < 256)
    (hd : ∀ b ∈ data, b < 256) : ∀ b ∈ xorCycle data key, b < 256 :=
  xorCycleAux_lt hk hd 0

/-! ## The canonical-token decode pipeline -/

theorem encToken_ne_nil {text : PyStr} (mc : PyStr) (ht : text ≠ []) :
    urlsafeB64Encode (xorCycle (utf8Encode text) (_derive_key mc)) ≠ [] := by
  apply urlsafeB64Encode_ne_nil
  intro hc
  apply utf8Encode_ne_nil ht
  have hlen := xorCycle_length (utf8Encode text) (_derive_key mc)
  rw [hc] at hlen
  exact List.length_eq_zero.mp hlen.symm

theorem pipeline_b64_rt (text mc : PyStr) :
    urlsafeB64Decode (urlsafeB64Encode (xorCycle (utf8Encode text) (_derive_key mc))) =
      some (xorCycle (utf8Encode text) (_derive_key mc)) :=
  b64_rt (xorCycle_lt (_derive_key_lt mc) (utf8Encode_lt text))

theorem pipeline_xor_utf8_rt (text : PyStr) (key : List Nat) :
    utf8Decode (xorCycle (xorCycle (utf8Encode text) key) key) = some text := by
  rw [xorCycle_involution, utf8Encode_rt]

theorem isPrefixOf_append (xs ys : PyStr) : xs.isPrefixOf (xs ++ ys) = true := by
  induction xs with
  | nil => simp [List.isPrefixOf]
  | cons a t ih => simp [List.isPrefixOf, ih]

theorem decrypt_canonical {mc text : PyStr} (hmc : mc ≠ []) (ht : text ≠ []) :
    decrypt_api_key (urlsafeB64Encode (xorCycle (utf8Encode text) (_derive_key mc))) mc =
      parse_token_text text := by
  have hneg : ¬ (urlsafeB64Encode (xorCycle (utf8Encode text) (_derive_key mc)) = [] ∨
      mc = []) := by
    push_neg
    exact ⟨encToken_ne_nil mc ht, hmc⟩
  unfold decrypt_api_key
  rw [if_neg hneg]
  simp only [pipeline_b64_rt, pipeline_xor_utf8_rt]

/-! ## Lemmas about the expiry parser -/

theorem strpYmdHM_sep {sep : Char} {s : PyStr} {dt : PyDateTime}
    (h : strpYmdHM sep s = some dt) :
    ∃ r, s.dropWhile Char.isDigit = sep :: r := by
  unfold strpYmdHM at h
  by_cases h4 : (s.takeWhile Char.isDigit).length = 4
  · rw [if_pos h4] at h
    cases hr : s.dropWhile Char.isDigit with
    | nil =>
      rw [hr] at h
      simp at h
    | cons c r =>
      rw [hr] at h
      by_cases hc : c = sep
      · exact ⟨r, by rw [hc]⟩
      · exfalso
        simp only [] at h
        rw [if_neg hc] at h
        simp at h
  · rw [if_neg h4] at h
    simp at h

/-! ## Helper lemmas for the wire format -/

theorem wire_v3_eq (k b m e : PyStr) :
    "AI-TUTOR|v3|".toList ++ k ++ "|".toList ++ b ++ "|".toList ++ m ++ "|".toList ++ e =
      List.intercalate ['|'] ["AI-TUTOR".toList, "v3".toList, k, b, m, e] := by
  have h1 : List.intercalate ['|'] ["AI-TUTOR".toList, "v3".toList, k, b, m, e] =
      "AI-TUTOR".toList ++ '|' ::
        ("v3".toList ++ '|' :: (k ++ '|' :: (b ++ '|' :: (m ++ '|' :: e)))) := by
    simp [List.intercalate, List.intersperse]
  rw [h1, show "AI-TUTOR|v3|".toList = "AI-TUTOR".toList ++ '|' :: "v3".toList ++ ['|']
    from by decide, show "|".toList = ['|'] from by decide]
  simp [List.append_assoc]

theorem splitPipe_v3 (k b m e : PyStr) (hk : '|' ∉ k) (hb : '|' ∉ b) (hm : '|' ∉ m)
    (he : '|' ∉ e) :
    splitPipe ("AI-TUTOR|v3|".toList ++ k ++ "|".toList ++ b ++ "|".toList ++ m ++
        "|".toList ++ e) =
      ["AI-TUTOR".toList, "v3".toList, k, b, m, e] := by
  rw [show "AI-TUTOR|v3|".toList = "AI-TUTOR".toList ++ '|' :: "v3".toList ++ ['|']
    from by decide, show "|".toList = ['|'] from by decide]
  simp only [List.append_assoc, List.cons_append, List.singleton_append, List.nil_append]
  rw [splitPipe_append_pipe _ (by decide), splitPipe_append_pipe _ (by decide),
    splitPipe_append_pipe _ hk, splitPipe_append_pipe _ hb, splitPipe_append_pipe _ hm,
    splitPipe_no_pipe he]

theorem splitPipe_marker (k : PyStr) :
    splitPipe (markerL ++ k) = "AI-TUTOR".toList :: splitPipe k := by
  rw [show markerL = "AI-TUTOR".toList ++ ['|'] from by decide]
  simp only [List.append_assoc, List.singleton_append]
  exact splitPipe_append_pipe _ (by decide)

/-! ## Helper lemmas for the machine-code format -/

theorem bytesToHex_length (l : List Nat) : (bytesToHex l).length = 2 * l.length := by
  induction l with
  | nil => rfl
  | cons b rest ih => simp [bytesToHex, ih]; omega

theorem bytesToHex_mem {l : List Nat} (h : ∀ b ∈ l, b < 256) :
    ∀ ch ∈ bytesToHex l, ∃ v, v < 16 ∧ ch = hexDigit v := by
  induction l with
  | nil => simp [bytesToHex]
  | cons b rest ih =>
    have hb : b < 256 := h b (by simp)
    intro ch hch
    simp only [bytesToHex, List.mem_cons] at hch
    rcases hch with rfl | rfl | hch
    · exact ⟨b / 16, by omega, rfl⟩
    · exact ⟨b % 16, by omega, rfl⟩
    · exact ih (fun x hx => h x (by simp [hx])) ch hch

theorem upperHexOf : ∀ v, v < 16 →
    Char.toUpper (hexDigit v) ∈ "0123456789ABCDEF".toList := by decide

theorem machineCodeHex (bs : List Nat) :
    (((bytesToHex (sha256 bs)).map Char.toUpper).take 32).length = 32 ∧
      ∀ ch ∈ ((bytesToHex (sha256 bs)).map Char.toUpper).take 32,
        ch ∈ "0123456789ABCDEF".toList := by
  constructor
  · rw [List.length_take, List.length_map, bytesToHex_length, sha256_length]
    omega
  · intro ch hch
    have hch2 := List.take_subset 32 _ hch
    simp only [List.mem_map] at hch2
    obtain ⟨c0, hc0, rfl⟩ := hch2
    obtain ⟨v, hv, rfl⟩ := bytesToHex_mem (sha256_lt bs) c0 hc0
    exact upperHexOf v hv

/-! ## The claims -/

/-- Claim C3: for every token string and every fingerprint string (including
arbitrary garbage), `decrypt_api_key` terminates normally and never raises: in
this embedding every exception of the decoding steps is an `Option` failure
absorbed inside `decrypt_api_key`, which is a total function whose result is
always either the empty dict or a credential payload. -/
theorem claim_c3 (token mc : PyStr) :
    decrypt_api_key token mc = PyDict.empty ∨
      ∃ a b m e, decrypt_api_key token mc = PyDict.payload a b m e := by
  cases h : decrypt_api_key token mc with
  | empty => exact Or.inl rfl
  | payload a b m e => exact Or.inr ⟨a, b, m, e, rfl⟩

/-- Claim C4: for every combination of available/unavailable host-identifying
sources — including the all-unavailable case, where the fixed sentinel
`"AI-TUTOR-UNKNOWN"` is hashed (`machine_code_from_parts []`) — the machine
code is exactly 32 characters, all uppercase hexadecimal digits; the
function is total, hence never throws. -/
theorem claim_c4 :
    (∀ parts, (machine_code_from_parts parts).length = 32 ∧
      ∀ ch ∈ machine_code_from_parts parts, ch ∈ "0123456789ABCDEF".toList) ∧
    (∀ env : HostEnv, (get_machine_code env).length = 32 ∧
      ∀ ch ∈ get_machine_code env, ch ∈ "0123456789ABCDEF".toList) := by
  have core : ∀ parts, (machine_code_from_parts parts).length = 32 ∧
      ∀ ch ∈ machine_code_from_parts parts, ch ∈ "0123456789ABCDEF".toList := by
    intro parts
    simp only [machine_code_from_parts]
    exact machineCodeHex _
  exact ⟨core, fun env => core _⟩

/-- Claim C5: `encrypt_api_key("", F)` and `encrypt_api_key(key, "")` return
the empty string, and `decrypt_api_key("", F)` and `decrypt_api_key(token, "")`
return the all-empty payload: the empty dict, each of whose four fields reads as
the empty string. -/
theorem claim_c5 (F api_key token base_url model expire_at : PyStr) :
    encrypt_api_key [] F base_url model expire_at = [] ∧
    encrypt_api_key api_key [] base_url model expire_at = [] ∧
    decrypt_api_key [] F = PyDict.empty ∧
    decrypt_api_key token [] = PyDict.empty ∧
    (∀ f, (decrypt_api_key [] F).get f = []) ∧
    (∀ f, (decrypt_api_key token []).get f = []) := by
  have h1 : encrypt_api_key [] F base_url model expire_at = [] := by
    simp [encrypt_api_key]
  have h2 : encrypt_api_key api_key [] base_url model expire_at = [] := by
    simp [encrypt_api_key]
  have h3 : decrypt_api_key [] F = PyDict.empty := by
    simp [decrypt_api_key]
  have h4 : decrypt_api_key token [] = PyDict.empty := by
    simp [decrypt_api_key]
  refine ⟨h1, h2, h3, h4, fun f => by rw [h3]; cases f <;> rfl,
    fun f => by rw [h4]; cases f <;> rfl⟩

/-- Claim C9: `is_token_expired` reports expired exactly when the expiry text
parses under one of the two accepted patterns (`%Y-%m-%d %H:%M` or
`%Y/%m/%d %H:%M`) and the current time is at or after that timestamp; empty
or unparseable text reports not expired regardless of the current time. -/
theorem claim_c9 (now : PyDateTime) (s : PyStr) :
    is_token_expired now s = true ↔
      ∃ dt, (strpYmdHM '-' s = some dt ∨ strpYmdHM '/' s = some dt) ∧
        dtLe dt now = true := by
  by_cases hnil : s = []
  · subst hnil
    have h1 : strpYmdHM '-' ([] : PyStr) = none := by decide
    have h2 : strpYmdHM '/' ([] : PyStr) = none := by decide
    have h3 : is_token_expired now [] = false := rfl
    rw [h3]
    simp [h1, h2]
  · have hp : parse_expire_at s =
        (match strpYmdHM '-' s with
         | some dt => some dt
         | none => strpYmdHM '/' s) := by
      unfold parse_expire_at
      rw [if_neg hnil]
    unfold is_token_expired
    rw [hp]
    cases hd : strpYmdHM '-' s with
    | some dt =>
      simp only []
      constructor
      · intro h
        exact ⟨dt, Or.inl rfl, h⟩
      · rintro ⟨dt', hor, hle⟩
        rcases hor with h1 | h2
        · injection h1 with h1
          rw [h1]
          exact hle
        · obtain ⟨r1, hr1⟩ := strpYmdHM_sep hd
          obtain ⟨r2, hr2⟩ := strpYmdHM_sep h2
          rw [hr1] at hr2
          simp at hr2
    | none =>
      simp only []
      cases hs : strpYmdHM '/' s with
      | some dt =>
        constructor
        · intro h
          exact ⟨dt, Or.inr rfl, h⟩
        · rintro ⟨dt', hor, hle⟩
          rcases hor with h1 | h2
          · exact absurd h1 (by simp)
          · injection h2 with h2
            rw [h2]
            exact hle
      | none =>
        constructor
        · intro h
          simp at h
        · rintro ⟨dt', hor, hle⟩
          rcases hor with h1 | h2
          · exact absurd h1 (by simp)
          · exact absurd h2 (by simp)

/-- Claim C10: for non-empty `api_key` and `machine_code` the encoder returns
a non-empty token (the wire payload always contains the marker, so its
base64 encoding is non-empty); an empty return happens exactly when
`api_key` or `machine_code` is empty. -/
theorem claim_c10 (api_key mc base_url model expire_at : PyStr) :
    encrypt_api_key api_key mc base_url model expire_at = [] ↔
      (api_key = [] ∨ mc = []) := by
  constructor
  · intro h
    by_contra hc
    push_neg at hc
    simp only [encrypt_api_key] at h
    rw [if_neg (not_or.mpr hc)] at h
    refine encToken_ne_nil mc ?_ h
    split
    · rw [show "AI-TUTOR|v3|".toList = 'A' :: "I-TUTOR|v3|".toList from by decide]
      simp
    · rw [show markerL = 'A' :: "I-TUTOR|".toList from by decide]
      simp
  · intro h
    simp only [encrypt_api_key]
    rw [if_pos h]

/-- Claim C2 (amended): every failing decode — empty token, empty
fingerprint, malformed base64, non-UTF-8 bytes after XOR, or decoded text
missing the marker — returns the same result: the empty dict `{}`.  The
four credential fields are absent from it (`hasKey` is false, cf. the
counterexample), and each reads as the empty string under the
get-with-default access used by the callers. -/
theorem claim_c2_amended (token mc : PyStr)
    (h : token = [] ∨ mc = [] ∨ urlsafeB64Decode token = none ∨
      (∃ cipher, urlsafeB64Decode token = some cipher ∧
        utf8Decode (xorCycle cipher (_derive_key mc)) = none) ∨
      (∃ cipher text, urlsafeB64Decode token = some cipher ∧
        utf8Decode (xorCycle cipher (_derive_key mc)) = some text ∧
        markerL.isPrefixOf text = false)) :
    decrypt_api_key token mc = PyDict.empty ∧
      ∀ f, (decrypt_api_key token mc).get f = [] := by
  have hempty : decrypt_api_key token mc = PyDict.empty := by
    rcases h with h | h | h | ⟨cipher, h1, h2⟩ | ⟨cipher, text, h1, h2, h3⟩
    · simp [decrypt_api_key, h]
    · simp [decrypt_api_key, h]
    · by_cases hg : token = [] ∨ mc = []
      · simp [decrypt_api_key, hg]
      · simp only [decrypt_api_key]
        rw [if_neg hg, h]
    · by_cases hg : token = [] ∨ mc = []
      · simp [decrypt_api_key, hg]
      · simp only [decrypt_api_key]
        rw [if_neg hg, h1]
        simp only []
        rw [h2]
    · by_cases hg : token = [] ∨ mc = []
      · simp [decrypt_api_key, hg]
      · simp only [decrypt_api_key]
        rw [if_neg hg, h1]
        simp only []
        rw [h2]
        simp only []
        simp [parse_token_text, h3]
  exact ⟨hempty, fun f => by rw [hempty]; cases f <;> rfl⟩

/-- Witness for C2: the token `"A"` is malformed base64 (a single data
character), and decoding it under the fingerprint `"f"` yields the empty
dict. -/
theorem claim_c2_witness :
    decrypt_api_key ['A'] ['f'] = PyDict.empty ∧
      ∀ f, (decrypt_api_key ['A'] ['f']).get f = [] :=
  claim_c2_amended ['A'] ['f'] (Or.inr (Or.inr (Or.inl (by decide))))

/-- Counterexample to C2 as stated: on the failing decode of the malformed
token `"A"`, the result is the empty dict `{}`, so the field `api_key` is
NOT present in it (`"api_key" in result` is false in Python), contradicting
"whose four fields ... are all present". -/
theorem claim_c2_counterexample :
    urlsafeB64Decode ['A'] = none ∧
      decrypt_api_key ['A'] ['f'] = PyDict.empty ∧
      (decrypt_api_key ['A'] ['f']).hasKey PyField.api_key = false := by
  refine ⟨by decide, by decide, by decide⟩

/-- Claim C7: for every valid encode (non-empty `api_key` and fingerprint),
after trimming the optional fields: with at least one optional field
non-empty the pre-encryption wire payload is the marker tag, the version
tag `v3`, then `api_key`, `base_url`, `model`, `expire_at`, joined with
the `|` delimiter; with all three optional fields empty it is the marker
prefix followed by `api_key` only, with no version segment. -/
theorem claim_c7 (api_key mc base_url model expire_at : PyStr)
    (hk : api_key ≠ []) (hm : mc ≠ []) :
    ((pyStrip base_url ≠ [] ∨ pyStrip model ≠ [] ∨ pyStrip expire_at ≠ []) →
      encrypt_api_key api_key mc base_url model expire_at =
        urlsafeB64Encode (xorCycle (utf8Encode (List.intercalate ['|']
          ["AI-TUTOR".toList, "v3".toList, api_key, pyStrip base_url, pyStrip model,
            pyStrip expire_at])) (_derive_key mc))) ∧
    (pyStrip base_url = [] ∧ pyStrip model = [] ∧ pyStrip expire_at = [] →
      encrypt_api_key api_key mc base_url model expire_at =
        urlsafeB64Encode (xorCycle (utf8Encode ("AI-TUTOR|".toList ++ api_key))
          (_derive_key mc))) := by
  constructor
  · intro hopt
    simp only [encrypt_api_key]
    rw [if_neg (not_or.mpr ⟨hk, hm⟩), if_pos hopt, wire_v3_eq]
  · rintro ⟨hb, hm2, he⟩
    simp only [encrypt_api_key]
    rw [if_neg (not_or.mpr ⟨hk, hm⟩), if_neg (by simp [hb, hm2, he])]
    rfl

/-- Witness for C7: concrete instance of the v3 wire payload shape. -/
theorem claim_c7_witness :
    encrypt_api_key "k".toList "f".toList "u".toList [] [] =
      urlsafeB64Encode (xorCycle (utf8Encode (List.intercalate ['|']
        ["AI-TUTOR".toList, "v3".toList, "k".toList, pyStrip "u".toList,
          pyStrip [], pyStrip []])) (_derive_key "f".toList)) :=
  (claim_c7 "k".toList "f".toList "u".toList [] [] (by decide) (by decide)).1
    (Or.inl (by decide))

/-- Claim C8: every token whose decoded text carries the marker and whose
second `|`-separated segment is `v2` with at least 3 segments parses as
`api_key` = segment 2 trimmed, `base_url` = segment 3 if present else
empty, `model` = segment 4 if present else empty, and `expire_at` forced
empty regardless of any further segments. -/
theorem claim_c8 (token mc : PyStr) (cipher : List Nat) (text : PyStr)
    (htok : token ≠ []) (hmc : mc ≠ [])
    (hb : urlsafeB64Decode token = some cipher)
    (hu : utf8Decode (xorCycle cipher (_derive_key mc)) = some text)
    (hpre : markerL.isPrefixOf text = true)
    (hlen : 3 ≤ (splitPipe text).length)
    (hv2 : (splitPipe text).getD 1 [] = "v2".toList) :
    decrypt_api_key token mc =
      PyDict.payload (pyStrip ((splitPipe text).getD 2 []))
        (if 3 < (splitPipe text).length then pyStrip ((splitPipe text).getD 3 []) else [])
        (if 4 < (splitPipe text).length then pyStrip ((splitPipe text).getD 4 []) else [])
        [] := by
  simp only [decrypt_api_key]
  rw [if_neg (not_or.mpr ⟨htok, hmc⟩), hb]
  simp only []
  rw [hu]
  simp only []
  unfold parse_token_text
  rw [if_pos hpre]
  rw [if_neg (fun hcon => by
    have := hcon.2
    rw [hv2] at this
    exact absurd this (by decide))]
  rw [if_pos ⟨hlen, hv2⟩]

/-- Witness for C8: a v2 token with an extra sixth segment decodes with
`expire_at` forced empty. -/
theorem claim_c8_witness :
    decrypt_api_key (urlsafeB64Encode (xorCycle
        (utf8Encode "AI-TUTOR|v2|k|u|m|zz".toList) (_derive_key "f".toList)))
      "f".toList = PyDict.payload "k".toList "u".toList "m".toList [] := by
  have h := claim_c8
    (urlsafeB64Encode (xorCycle (utf8Encode "AI-TUTOR|v2|k|u|m|zz".toList)
      (_derive_key "f".toList)))
    "f".toList
    (xorCycle (utf8Encode "AI-TUTOR|v2|k|u|m|zz".toList) (_derive_key "f".toList))
    "AI-TUTOR|v2|k|u|m|zz".toList
    (by decide) (by decide) (by decide) (by decide) (by decide) (by decide) (by decide)
  exact h.trans (by decide)

/-- Claim C1 (amended): the v3 round trip.  For non-empty `api_key` and
fingerprint, with at least one optional field non-empty after trimming,
and provided none of the four fields contains the delimiter `|`
(the delimiter is not escaped by the code), decode-after-encode returns
each field trimmed of surrounding whitespace. -/
theorem claim_c1_amended (api_key F base_url model expire_at : PyStr)
    (hk : api_key ≠ []) (hF : F ≠ [])
    (hopt : pyStrip base_url ≠ [] ∨ pyStrip model ≠ [] ∨ pyStrip expire_at ≠ [])
    (hp1 : '|' ∉ api_key) (hp2 : '|' ∉ base_url) (hp3 : '|' ∉ model)
    (hp4 : '|' ∉ expire_at) :
    decrypt_api_key (encrypt_api_key api_key F base_url model expire_at) F =
      PyDict.payload (pyStrip api_key) (pyStrip base_url) (pyStrip model)
        (pyStrip expire_at) := by
  have henc : encrypt_api_key api_key F base_url model expire_at =
      urlsafeB64Encode (xorCycle (utf8Encode
        ("AI-TUTOR|v3|".toList ++ api_key ++ "|".toList ++ pyStrip base_url ++
          "|".toList ++ pyStrip model ++ "|".toList ++ pyStrip expire_at))
        (_derive_key F)) := by
    simp only [encrypt_api_key]
    rw [if_neg (not_or.mpr ⟨hk, hF⟩), if_pos hopt]
  have hne : ("AI-TUTOR|v3|".toList ++ api_key ++ "|".toList ++ pyStrip base_url ++
      "|".toList ++ pyStrip model ++ "|".toList ++ pyStrip expire_at) ≠ [] := by
    rw [show "AI-TUTOR|v3|".toList = 'A' :: "I-TUTOR|v3|".toList from by decide]
    simp
  rw [henc, decrypt_canonical hF hne]
  unfold parse_token_text
  have hmk : markerL.isPrefixOf ("AI-TUTOR|v3|".toList ++ api_key ++ "|".toList ++
      pyStrip base_url ++ "|".toList ++ pyStrip model ++ "|".toList ++
      pyStrip expire_at) = true := by
    rw [show "AI-TUTOR|v3|".toList = markerL ++ "v3|".toList from by decide]
    simp only [List.append_assoc]
    exact isPrefixOf_append _ _
  rw [if_pos hmk]
  rw [splitPipe_v3 api_key (pyStrip base_url) (pyStrip model) (pyStrip expire_at)
    hp1 (pipe_notMem_pyStrip hp2) (pipe_notMem_pyStrip hp3) (pipe_notMem_pyStrip hp4)]
  simp [pyStrip_idem]

/-- Witness for C1: a concrete v3 round trip with whitespace trimmed. -/
theorem claim_c1_witness :
    decrypt_api_key (encrypt_api_key " k ".toList "f".toList " u ".toList [] [])
      "f".toList = PyDict.payload "k".toList "u".toList [] [] :=
  (claim_c1_amended " k ".toList "f".toList " u ".toList [] [] (by decide) (by decide)
    (Or.inl (by decide)) (by decide) (by decide) (by decide) (by decide)).trans (by decide)

/-- Counterexample to C1 as stated: with `api_key = "a|b"` (which contains
the unescaped delimiter) and `base_url = "u"`, the decoded payload is
`{api_key: "a", base_url: "b", model: "u", expire_at: ""}`, not the
original fields. -/
theorem claim_c1_counterexample :
    decrypt_api_key (encrypt_api_key "a|b".toList "f".toList "u".toList [] [])
        "f".toList = PyDict.payload "a".toList "b".toList "u".toList [] ∧
      PyDict.payload "a".toList "b".toList "u".toList [] ≠
        PyDict.payload "a|b".toList "u".toList [] [] := by
  refine ⟨by decide, by decide⟩

/-- Claim C6 (amended): the minimal round trip and legacy compatibility.
For non-empty `api_key` and fingerprint with all optional fields empty,
the encoder emits exactly the hand-built legacy token
(base64 of the XOR of `"AI-TUTOR|" + api_key`), and — provided `api_key`
does not start with `"v2|"` or `"v3|"`, which the versioned parse would
capture — that token decodes to `{trim(api_key), "", "", ""}`. -/
theorem claim_c6_amended (api_key F : PyStr) (hk : api_key ≠ []) (hF : F ≠ [])
    (hnv2 : "v2|".toList.isPrefixOf api_key = false)
    (hnv3 : "v3|".toList.isPrefixOf api_key = false) :
    encrypt_api_key api_key F =
      urlsafeB64Encode (xorCycle (utf8Encode ("AI-TUTOR|".toList ++ api_key))
        (_derive_key F)) ∧
    decrypt_api_key (encrypt_api_key api_key F) F =
      PyDict.payload (pyStrip api_key) [] [] [] := by
  have henc : encrypt_api_key api_key F =
      urlsafeB64Encode (xorCycle (utf8Encode (markerL ++ api_key)) (_derive_key F)) := by
    simp only [encrypt_api_key]
    rw [if_neg (not_or.mpr ⟨hk, hF⟩),
      if_neg (by decide : ¬ (pyStrip ([] : PyStr) ≠ [] ∨ pyStrip ([] : PyStr) ≠ [] ∨
        pyStrip ([] : PyStr) ≠ []))]
  have hne : (markerL ++ api_key) ≠ [] := by
    rw [show markerL = 'A' :: "I-TUTOR|".toList from by decide]
    simp
  refine ⟨henc, ?_⟩
  rw [henc, decrypt_canonical hF hne]
  unfold parse_token_text
  rw [if_pos (isPrefixOf_append markerL api_key), splitPipe_marker]
  cases hsp : splitPipe api_key with
  | nil => exact absurd hsp (splitPipe_ne_nil _)
  | cons s ss =>
    cases ss with
    | nil =>
      rw [if_neg (by simp), if_neg (by simp), List.drop_left]
    | cons t ts =>
      have hs3 : s ≠ "v3".toList := by
        intro hcon
        obtain ⟨r, hr1, _⟩ := splitPipe_cons_cons hsp
        rw [hcon] at hr1
        have : "v3|".toList.isPrefixOf api_key = true := by
          rw [hr1, show "v3|".toList = "v3".toList ++ ['|'] from by decide]
          rw [show "v3".toList ++ '|' :: r = ("v3".toList ++ ['|']) ++ r by simp]
          exact isPrefixOf_append _ _
        rw [this] at hnv3
        exact absurd hnv3 (by simp)
      have hs2 : s ≠ "v2".toList := by
        intro hcon
        obtain ⟨r, hr1, _⟩ := splitPipe_cons_cons hsp
        rw [hcon] at hr1
        have : "v2|".toList.isPrefixOf api_key = true := by
          rw [hr1, show "v2|".toList = "v2".toList ++ ['|'] from by decide]
          rw [show "v2".toList ++ '|' :: r = ("v2".toList ++ ['|']) ++ r by simp]
          exact isPrefixOf_append _ _
        rw [this] at hnv2
        exact absurd hnv2 (by simp)
      rw [if_neg (fun hcon => hs3 hcon.2), if_neg (fun hcon => hs2 hcon.2),
        List.drop_left]

/-- Witness for C6: the minimal round trip for `api_key = "key"`. -/
theorem claim_c6_witness :
    encrypt_api_key "key".toList "f".toList =
      urlsafeB64Encode (xorCycle (utf8Encode ("AI-TUTOR|".toList ++ "key".toList))
        (_derive_key "f".toList)) ∧
    decrypt_api_key (encrypt_api_key "key".toList "f".toList) "f".toList =
      PyDict.payload "key".toList [] [] [] := by
  have h := claim_c6_amended "key".toList "f".toList (by decide) (by decide)
    (by decide) (by decide)
  exact ⟨h.1, h.2.trans (by decide)⟩

/-- Counterexample to C6 as stated: `api_key = "v3|a"` is non-empty, yet
its minimal token decodes as a v3 payload, yielding `{api_key: "a", ...}`
rather than `{api_key: "v3|a", "", "", ""}`. -/
theorem claim_c6_counterexample :
    decrypt_api_key (encrypt_api_key "v3|a".toList "f".toList) "f".toList =
        PyDict.payload "a".toList [] [] [] ∧
      PyDict.payload "a".toList [] [] [] ≠
        PyDict.payload "v3|a".toList [] [] [] := by
  refine ⟨by decide, by decide⟩
